import Mathlib

/-!
Verification development for the YTDLP search engine's core: text
normalization, the multi-signal relevance scorer, the dynamic fuzzy
threshold policy, and the worker partition / merge scheduler.

Strings are modelled as `List Char` (ASCII case mapping, matching the
ASCII character classes of the source's regexes).  Numeric scores are
rationals; a JavaScript `NaN`/`Infinity` outcome (division by a zero
length) is modelled as `none : Option ℚ`, and arithmetic on scores
propagates `none` the way IEEE arithmetic propagates `NaN`.

The two external string-matching libraries used by the scorer are not
part of this repository:
* `fuse.js` is modelled by a parameter
  `fuse : List Char → ItemForAnalysis → Option ℚ` giving the raw match
  cost (in `[0,1]`, `none` = record absent from the result list) of a
  record for a query.  `fuse.js` computes per-record scores from the
  query, the configured key weights and the record's own fields only
  (it keeps no corpus statistics), so a per-record cost function is a
  faithful boundary; every theorem is universally quantified over it.
* `natural`'s SoundEx comparison is modelled by a parameter
  `phon : List Char → List Char → ℚ` (the source produces `1` or `0`;
  no theorem depends on its value).
-/

namespace YTS

/-- JavaScript regex `\s` (ASCII part): the whitespace characters. -/
def jsSpaceChar (c : Char) : Bool :=
  c = ' ' || c = '\t' || c = '\n' || c = '\r' || c = '\x0b' || c = '\x0c'

/-- JavaScript regex `\w`: ASCII letters, digits and the underscore. -/
def jsWordChar (c : Char) : Bool :=
  c.isAlpha || c.isDigit || c = '_'

/-- `.replace(/\s+/g, ' ')`: every run of whitespace becomes one space. -/
def collapseSpaces : List Char → List Char
  | [] => []
  | c :: rest =>
    let r := collapseSpaces rest
    if jsSpaceChar c then
      match r with
      | d :: t => if d = ' ' then ' ' :: t else ' ' :: d :: t
      | [] => [' ']
    else c :: r

/-- `String.prototype.trim()`: strip leading and trailing whitespace. -/
def trimChars (l : List Char) : List Char :=
  ((l.dropWhile jsSpaceChar).reverse.dropWhile jsSpaceChar).reverse

/-- `normalizeText` (helpers): lowercase, remove characters matching
`[^\w\s]`, collapse whitespace runs, trim. -/
def normalizeText (text : List Char) : List Char :=
  trimChars (collapseSpaces
    ((text.map Char.toLower).filter (fun c => jsWordChar c || jsSpaceChar c)))

/-- One cell of the Levenshtein dynamic-programming row. -/
def levCell (x bj : Char) (diag above left : ℕ) : ℕ :=
  min (above + 1) (min (left + 1) (diag + (if x = bj then 0 else 1)))

/-- Build the tail of the next DP row, walking `b` and the previous row. -/
def levRowAux (x : Char) : List Char → List ℕ → ℕ → ℕ → List ℕ
  | [], _, _, _ => []
  | _ :: _, [], _, _ => []
  | bj :: bs, above :: prevRest, diag, left =>
    let cur := levCell x bj diag above left
    cur :: levRowAux x bs prevRest above cur

/-- Fold the DP rows over the first string. -/
def levLoop : List Char → List Char → List ℕ → ℕ → List ℕ
  | [], _, prev, _ => prev
  | x :: xs, bs, prev, i =>
    let newRow := (i + 1) :: levRowAux x bs prev.tail (prev.headD 0) (i + 1)
    levLoop xs bs newRow (i + 1)

/-- The Levenshtein edit distance (unit insert/delete/substitute costs),
the metric computed by `natural.LevenshteinDistance` with its default
options.  Written as a row-by-row dynamic program so that it is
structurally recursive and kernel-evaluable. -/
def levenshtein (a b : List Char) : ℕ :=
  (levLoop a b (List.range (b.length + 1)) 0).getLastD 0

/-- `computeLevenshteinSimilarity`: `(maxLength - distance) / maxLength`.
When both strings are empty the source divides `0/0` and produces `NaN`,
modelled here as `none`. -/
def computeLevenshteinSimilarity (a b : List Char) : Option ℚ :=
  let maxLength := max a.length b.length
  if maxLength = 0 then none
  else some (((maxLength : ℚ) - levenshtein a b) / maxLength)

/-- Per-field weight set (`title`/`description`/`tags`/`author`). -/
structure Weights where
  title : ℚ
  description : ℚ
  tags : ℚ
  author : ℚ
  deriving DecidableEq

/-- `languageWeights` from the source. -/
def languageWeights : Weights := ⟨0.6, 0.25, 0.05, 0.1⟩

/-- `exactMatchWeights` from the source. -/
def exactMatchWeights : Weights := ⟨0.6, 0.25, 0.05, 0.1⟩

/-- `scoreWeights = { language: 0.3, fuzzy: 0.2, directMatch: 0.5 }`. -/
structure ScoreWeights where
  language : ℚ
  fuzzy : ℚ
  directMatch : ℚ
  deriving DecidableEq

/-- The score-combination weights from the source. -/
def scoreWeights : ScoreWeights := ⟨0.3, 0.2, 0.5⟩

/-- The scoring-relevant fields of a candidate record (`ItemForAnalysis`).
Optional fields absent from the metadata JSON are `none`. -/
structure ItemForAnalysis where
  id : String
  title : Option (List Char) := none
  description : Option (List Char) := none
  tags : Option (List (List Char)) := none
  uploader : Option (List Char) := none
  duration : ℚ := 0
  deriving DecidableEq

/-- `Array.prototype.join(' ')`. -/
def joinSpace (ls : List (List Char)) : List Char :=
  List.intercalate [' '] ls

/-- `computeLanguageSimilarity`: Levenshtein similarity of the normalized
query against normalized title / description / joined tags, SoundEx
comparison (`phon`) against the normalized uploader, combined with
`languageWeights`.  `none` (NaN) from any Levenshtein component
propagates to the result, as in the source. -/
def computeLanguageSimilarity (phon : List Char → List Char → ℚ)
    (query : List Char) (data : ItemForAnalysis) : Option ℚ :=
  let queryNormalized := normalizeText query
  let titleNormalized := normalizeText (data.title.getD [])
  let descriptionNormalized := normalizeText (data.description.getD [])
  let tagsNormalized := joinSpace ((data.tags.getD []).map normalizeText)
  let authorNormalized := normalizeText (data.uploader.getD [])
  match computeLevenshteinSimilarity queryNormalized titleNormalized,
      computeLevenshteinSimilarity queryNormalized descriptionNormalized,
      computeLevenshteinSimilarity queryNormalized tagsNormalized with
  | some titleSimilarity, some descriptionSimilarity, some tagsSimilarity =>
    some (languageWeights.title * titleSimilarity +
      languageWeights.description * descriptionSimilarity +
      languageWeights.tags * tagsSimilarity +
      languageWeights.author * phon queryNormalized authorNormalized)
  | _, _, _ => none

/-- The `.toLowerCase().trim()` normalization used by `computeDirectMatch`
(no punctuation removal there, unlike `normalizeText`). -/
def directNorm (l : List Char) : List Char :=
  trimChars (l.map Char.toLower)

/-- One key's score inside `computeDirectMatch`: `hasMatch ?
queryLength / itemKeyLength : 0`, for the already-normalized query `qn`
against the raw field `f`.  `includes` with an empty normalized query
and an empty field triggers the `0 / 0` (`NaN`) path, modelled `none`. -/
def directMatchFieldScore (qn f : List Char) : Option ℚ :=
  let fn := directNorm f
  if qn <:+: fn then
    if fn.length = 0 then none
    else some ((qn.length : ℚ) / fn.length)
  else some 0

/-- `computeDirectMatch`: weighted sum over title / description /
joined tags / uploader of the per-key substring-containment scores. -/
def computeDirectMatch (query : List Char) (item : ItemForAnalysis) : Option ℚ :=
  let queryNormalized := directNorm query
  match directMatchFieldScore queryNormalized (item.title.getD []),
      directMatchFieldScore queryNormalized (item.description.getD []),
      directMatchFieldScore queryNormalized (joinSpace (item.tags.getD [])),
      directMatchFieldScore queryNormalized (item.uploader.getD []) with
  | some t, some d, some tg, some u =>
    some (exactMatchWeights.title * t + exactMatchWeights.description * d +
      exactMatchWeights.tags * tg + exactMatchWeights.author * u)
  | _, _, _, _ => none

/-- A scored record: the candidate plus the four derived scores.
`similarity`, `languageSimilarity` and `directMatchScore` are `none`
when the corresponding JavaScript computation yields `NaN`. -/
structure Item extends ItemForAnalysis where
  similarity : Option ℚ
  languageSimilarity : Option ℚ
  fuzzyScore : ℚ
  directMatchScore : Option ℚ
  deriving DecidableEq

/-- `fuse.search(query)` over the worker's batch: the records whose
per-record cost function `fuse` reports a match, with their costs. -/
def fuseSearchModel (fuse : List Char → ItemForAnalysis → Option ℚ)
    (query : List Char) (items : List ItemForAnalysis) :
    List (ItemForAnalysis × ℚ) :=
  items.filterMap (fun it => (fuse query it).map (fun c => (it, c)))

/-- The body of the `items.map` in `computeSimilarity`: attach the four
scores to one record of the batch.  The fuzzy score is looked up in the
batch's fuse results by record id (`fuzzyResults.find(... id ===
data.id)`), `1 - cost` when present and `0` otherwise. -/
def scoreItemInBatch (fuse : List Char → ItemForAnalysis → Option ℚ)
    (phon : List Char → List Char → ℚ) (query : List Char)
    (items : List ItemForAnalysis) (data : ItemForAnalysis) : Item :=
  let languageSimilarity := computeLanguageSimilarity phon query data
  let fuzzyScore : ℚ :=
    match (fuseSearchModel fuse query items).find? (fun r => r.1.id == data.id) with
    | some r => 1 - r.2
    | none => 0
  let directMatchScore := computeDirectMatch query data
  { toItemForAnalysis := data
    similarity :=
      match languageSimilarity, directMatchScore with
      | some l, some d =>
        some (scoreWeights.language * l + scoreWeights.fuzzy * fuzzyScore +
          scoreWeights.directMatch * d)
      | _, _ => none
    languageSimilarity := languageSimilarity
    fuzzyScore := fuzzyScore
    directMatchScore := directMatchScore }

/-- Chunk-independent form of `scoreItemInBatch`: the fuzzy cost is read
off the record itself instead of being found in the batch's result list.
`find_fuseSearchModel` below shows the two agree whenever record ids are
unique in the batch. -/
def scoreItem (fuse : List Char → ItemForAnalysis → Option ℚ)
    (phon : List Char → List Char → ℚ) (query : List Char)
    (data : ItemForAnalysis) : Item :=
  let languageSimilarity := computeLanguageSimilarity phon query data
  let fuzzyScore : ℚ :=
    match fuse query data with
    | some c => 1 - c
    | none => 0
  let directMatchScore := computeDirectMatch query data
  { toItemForAnalysis := data
    similarity :=
      match languageSimilarity, directMatchScore with
      | some l, some d =>
        some (scoreWeights.language * l + scoreWeights.fuzzy * fuzzyScore +
          scoreWeights.directMatch * d)
      | _, _ => none
    languageSimilarity := languageSimilarity
    fuzzyScore := fuzzyScore
    directMatchScore := directMatchScore }

/-- The JavaScript comparator `(a, b) => bKey - aKey` as a Bool order:
`a` may precede `b` iff the comparator is `≤ 0`, i.e. `key b ≤ key a`
(descending).  A `NaN` key makes the comparator return `NaN`, which the
runtime's sort treats as "leave in place", modelled `true`. -/
def jsGeB : Option ℚ → Option ℚ → Bool
  | some x, some y => if y ≤ x then true else false
  | _, _ => true

/-- The order relation on scored records induced by a sort key. -/
def keyRel (key : Item → Option ℚ) (a b : Item) : Prop :=
  jsGeB (key a) (key b) = true

instance (key : Item → Option ℚ) : DecidableRel (keyRel key) :=
  fun _ _ => instDecidableEqBool _ _

/-- The default / `normal` sort key: final similarity, descending. -/
def similarityKey (it : Item) : Option ℚ := it.similarity

/-- The `fuzzy` sort key. -/
def fuzzyKey (it : Item) : Option ℚ := some it.fuzzyScore

/-- The `language` sort key. -/
def languageKey (it : Item) : Option ℚ := it.languageSimilarity

/-- `getSortAlgorithm`: maps a sort-mode name to its comparator's key.
`random`'s comparator draws `Math.random()` on every comparison and has
no deterministic key, hence `none`; unknown names fall back to the
default similarity comparator. -/
def getSortAlgorithm (sortAlgorithm : String) : Option (Item → Option ℚ) :=
  if sortAlgorithm = "fuzzy" then some fuzzyKey
  else if sortAlgorithm = "language" then some languageKey
  else if sortAlgorithm = "random" then none
  else some similarityKey

/-- `computeSimilarity`: score every record of the batch, then
`results.sort((a, b) => b.similarity - a.similarity)` — a stable sort,
modelled by insertion sort (JavaScript's sort is specified stable). -/
def computeSimilarity (fuse : List Char → ItemForAnalysis → Option ℚ)
    (phon : List Char → List Char → ℚ) (query : List Char)
    (items : List ItemForAnalysis) : List Item :=
  List.insertionSort (keyRel similarityKey)
    (items.map (scoreItemInBatch fuse phon query items))

/-- `Array.prototype.slice(0, limit)`: a nonnegative `limit` takes the
first `limit` elements; a negative `limit` counts from the end
(`max(length + limit, 0)` elements). -/
def jsSliceZero (l : List α) (limit : ℤ) : List α :=
  if 0 ≤ limit then l.take limit.toNat
  else l.take ((l.length : ℤ) + limit).toNat

/-- `sliceAndSortResults`: stable-sort the merged results by the
selected comparator's key, then `slice(0, limit)`. -/
def sliceAndSortResults (results : List Item) (limit : ℤ)
    (key : Item → Option ℚ) : List Item :=
  jsSliceZero (List.insertionSort (keyRel key) results) limit

/-- `chunkSize = Math.ceil(totalCandidates / workerCount)`. -/
def chunkSizeOf (total workerCount : ℕ) : ℕ :=
  (total + workerCount - 1) / workerCount

/-- The partition step of `distributeTasksToWorkers`: worker `i`
receives `files.slice(i * chunkSize, (i + 1) * chunkSize)`. -/
def workerChunks (files : List α) (workerCount : ℕ) : List (List α) :=
  (List.range workerCount).map
    (fun i => (files.drop (i * chunkSizeOf files.length workerCount)).take
      (chunkSizeOf files.length workerCount))

/-- The distributed search, all workers succeeding: partition the
candidates, let each worker run `computeSimilarity` over its own chunk
(building its fuse index over that chunk only), concatenate the worker
results in worker order (`Promise.all` preserves order, then
`.flat(1)`), and `sliceAndSortResults`. -/
def runDistributed (fuse : List Char → ItemForAnalysis → Option ℚ)
    (phon : List Char → List Char → ℚ) (query : List Char)
    (files : List ItemForAnalysis) (workerCount : ℕ) (limit : ℤ)
    (key : Item → Option ℚ) : List Item :=
  sliceAndSortResults
    (((workerChunks files workerCount).map (computeSimilarity fuse phon query)).flatten)
    limit key

/-- How a worker promise settles (`main.ts`): a worker either posts its
result message, raises an error event, or exits with a nonzero code
(an exit with code 0 after the message leaves the promise already
resolved). -/
inductive WorkerOutcome where
  | message : List Item → WorkerOutcome
  | errored : WorkerOutcome
  | exitedNonzero : ℕ → WorkerOutcome
  deriving DecidableEq

/-- The failure carried by a rejected worker promise. -/
inductive SearchFailure where
  | workerError : SearchFailure
  | workerExit : ℕ → SearchFailure
  deriving DecidableEq

/-- The promise built for one worker: `resolve` on message, `reject` on
the error event, `reject(new Error(...))` on a nonzero exit code. -/
def workerPromise : WorkerOutcome → Except SearchFailure (List Item)
  | .message items => .ok items
  | .errored => .error .workerError
  | .exitedNonzero code => .error (.workerExit code)

/-- `Promise.all`: all fulfilled → the list of results in worker order;
any rejected → the whole thing rejects with a single failure. -/
def promiseAll : List (Except SearchFailure (List Item)) →
    Except SearchFailure (List (List Item))
  | [] => .ok []
  | x :: xs =>
    match x with
    | .error e => .error e
    | .ok a =>
      match promiseAll xs with
      | .error e => .error e
      | .ok rest => .ok (a :: rest)

/-- The main thread's collect-and-merge (`index.ts`): await all worker
promises; on success `flat(1)` and `sliceAndSortResults`, on any worker
failure report the single failure (the `.catch` path serves no result). -/
def runDistributedWithOutcomes (outcomes : List WorkerOutcome) (limit : ℤ)
    (key : Item → Option ℚ) : Except SearchFailure (List Item) :=
  match promiseAll (outcomes.map workerPromise) with
  | .error e => .error e
  | .ok results => .ok (sliceAndSortResults results.flatten limit key)

/-- `calculateThreshold`: logarithmic interpolation between 0.1 and 0.8
over query lengths up to 150, clamped. -/
noncomputable def calculateThreshold (length : ℕ) : ℝ :=
  let minThreshold : ℝ := 0.1
  let maxThreshold : ℝ := 0.8
  let maxQueryLength : ℝ := 150
  let threshold :=
    minThreshold + (Real.log length / Real.log maxQueryLength) *
      (maxThreshold - minThreshold)
  max minThreshold (min maxThreshold threshold)

/-- `calculateLocation`: always 0. -/
def calculateLocation (_queryLength : ℕ) : ℕ := 0

/-! ### Stable sorting by a rational key

JavaScript's `Array.prototype.sort` is specified stable; with a
comparator `(a, b) => keyOf(b) - keyOf(a)` it computes the unique
permutation that is non-increasing in the key and keeps tied elements
in input order.  `List.insertionSort` with the descending relation is
such a sort.  The lemmas below characterize it: it preserves the
per-key-class subsequences (`filter_insertionSort_key`), and a sorted
list is determined by those subsequences (`sorted_desc_unique`). -/

section SortTheory

variable {α : Type*}

/-- Descending comparison of the values of a rational key. -/
def descRel (k : α → ℚ) (a b : α) : Prop := k b ≤ k a

instance (k : α → ℚ) : DecidableRel (descRel k) :=
  fun a b => inferInstanceAs (Decidable (k b ≤ k a))

instance (k : α → ℚ) : IsTotal α (descRel k) :=
  ⟨fun a b => (le_total (k b) (k a)).imp id id⟩

instance (k : α → ℚ) : IsTrans α (descRel k) :=
  ⟨fun _ _ _ h1 h2 => le_trans h2 h1⟩

lemma filter_orderedInsert_key (k : α → ℚ) (v : ℚ) (x : α) :
    ∀ l : List α,
      (List.orderedInsert (descRel k) x l).filter (fun y => decide (k y = v)) =
        if k x = v then x :: l.filter (fun y => decide (k y = v))
        else l.filter (fun y => decide (k y = v))
  | [] => by
    by_cases hxv : k x = v <;> simp [List.orderedInsert, hxv]
  | b :: t => by
    by_cases hxb : descRel k x b
    · by_cases hxv : k x = v <;> simp [List.orderedInsert, hxb, hxv]
    · have hlt : k x < k b := not_le.mp hxb
      have ih := filter_orderedInsert_key k v x t
      by_cases hxv : k x = v
      · have hbv : ¬ k b = v := by
          intro hb
          rw [hxv, ← hb] at hlt
          exact absurd hlt (lt_irrefl _)
        simp [List.orderedInsert, hxb, hxv, hbv, ih]
      · by_cases hbv : k b = v <;>
          simp [List.orderedInsert, hxb, hxv, hbv, ih]

lemma filter_insertionSort_key (k : α → ℚ) (v : ℚ) :
    ∀ l : List α,
      (List.insertionSort (descRel k) l).filter (fun y => decide (k y = v)) =
        l.filter (fun y => decide (k y = v))
  | [] => rfl
  | a :: t => by
    rw [List.insertionSort, filter_orderedInsert_key,
      filter_insertionSort_key k v t]
    by_cases hav : k a = v <;> simp [hav]

/-- Two lists sorted non-increasingly in the key and agreeing on every
per-key-class subsequence are equal. -/
lemma sorted_desc_unique (k : α → ℚ) :
    ∀ l₁ l₂ : List α, l₁.Pairwise (descRel k) → l₂.Pairwise (descRel k) →
      (∀ v : ℚ, l₁.filter (fun y => decide (k y = v)) =
        l₂.filter (fun y => decide (k y = v))) →
      l₁ = l₂
  | [], [], _, _, _ => rfl
  | [], b :: _, _, _, hf => by
    have h := hf (k b)
    simp at h
  | a :: _, [], _, _, hf => by
    have h := hf (k a)
    simp at h
  | a :: t₁, b :: t₂, h₁, h₂, hf => by
    rw [List.pairwise_cons] at h₁ h₂
    have hab : k a ≤ k b := by
      have h := hf (k a)
      have ha : a ∈ (b :: t₂).filter (fun y => decide (k y = k a)) := by
        rw [← h]
        simp
      rcases List.mem_cons.mp (List.mem_of_mem_filter ha) with rfl | hmem
      · exact le_refl _
      · exact h₂.1 a hmem
    have hba : k b ≤ k a := by
      have h := hf (k b)
      have hb : b ∈ (a :: t₁).filter (fun y => decide (k y = k b)) := by
        rw [h]
        simp
      rcases List.mem_cons.mp (List.mem_of_mem_filter hb) with rfl | hmem
      · exact le_refl _
      · exact h₁.1 b hmem
    have hkab : k a = k b := le_antisymm hab hba
    have hhead := hf (k a)
    rw [List.filter_cons, List.filter_cons] at hhead
    simp only [decide_eq_true_eq, hkab, eq_self_iff_true, if_true,
      List.cons.injEq] at hhead
    obtain ⟨rfl, htaila⟩ : a = b ∧
        t₁.filter (fun y => decide (k y = k b)) =
          t₂.filter (fun y => decide (k y = k b)) := hhead
    have htails : ∀ v, t₁.filter (fun y => decide (k y = v)) =
        t₂.filter (fun y => decide (k y = v)) := by
      intro v
      by_cases hv : v = k a
      · rw [hv, hkab]
        exact htaila
      · have h := hf v
        rw [List.filter_cons, List.filter_cons] at h
        have hna : ¬ k a = v := fun hh => hv hh.symm
        have hnb : ¬ k a = v := hna
        simp only [decide_eq_true_eq, if_neg hna, hkab, if_neg (hkab ▸ hna)] at h
        exact h
    rw [sorted_desc_unique k t₁ t₂ h₁.2 h₂.2 htails]

/-- Sorting two lists with equal per-key-class subsequences gives equal
results: the heart of the worker-count-independence argument. -/
lemma insertionSort_eq_of_filter_eq (k : α → ℚ) (l₁ l₂ : List α)
    (h : ∀ v : ℚ, l₁.filter (fun y => decide (k y = v)) =
      l₂.filter (fun y => decide (k y = v))) :
    List.insertionSort (descRel k) l₁ = List.insertionSort (descRel k) l₂ :=
  sorted_desc_unique k _ _ (List.sorted_insertionSort _ l₁)
    (List.sorted_insertionSort _ l₂)
    (fun v => by rw [filter_insertionSort_key, filter_insertionSort_key]; exact h v)

lemma orderedInsert_congr (r s : α → α → Prop) [DecidableRel r]
    [DecidableRel s] (x : α) :
    ∀ l : List α, (∀ b ∈ l, r x b ↔ s x b) →
      List.orderedInsert r x l = List.orderedInsert s x l
  | [], _ => rfl
  | b :: t, h => by
    have hb := h b (by simp)
    by_cases hrb : r x b
    · rw [List.orderedInsert, List.orderedInsert, if_pos hrb, if_pos (hb.mp hrb)]
    · have hsb : ¬ s x b := fun hs => hrb (hb.mpr hs)
      rw [List.orderedInsert, List.orderedInsert, if_neg hrb, if_neg hsb,
        orderedInsert_congr r s x t (fun c hc => h c (by simp [hc]))]

/-- Sorting depends on the comparator only through the pairs actually in
the list. -/
lemma insertionSort_congr (r s : α → α → Prop) [DecidableRel r]
    [DecidableRel s] :
    ∀ l : List α, (∀ a ∈ l, ∀ b ∈ l, r a b ↔ s a b) →
      List.insertionSort r l = List.insertionSort s l
  | [], _ => rfl
  | a :: t, h => by
    rw [List.insertionSort, List.insertionSort,
      insertionSort_congr r s t (fun x hx y hy => h x (by simp [hx]) y (by simp [hy]))]
    refine orderedInsert_congr r s a _ (fun b hb => h a (by simp) b ?_)
    have := (List.mem_insertionSort (r := s) (l := t)).mp hb
    simp [this]

lemma filter_flatten (p : α → Bool) :
    ∀ L : List (List α),
      L.flatten.filter p = (L.map (fun l => l.filter p)).flatten
  | [] => rfl
  | l :: L => by
    simp [List.filter_append, filter_flatten p L]

end SortTheory

/-! ### The partition lemma -/

lemma flatten_chunks_take {α : Type*} (c : ℕ) :
    ∀ (k : ℕ) (l : List α),
      ((List.range k).map (fun i => (l.drop (i * c)).take c)).flatten =
        l.take (k * c) := by
  intro k
  induction k with
  | zero => intro l; simp
  | succ n ih =>
    intro l
    rw [List.range_succ, List.map_append, List.flatten_append, ih]
    simp only [List.map_cons, List.map_nil, List.flatten_cons, List.flatten_nil,
      List.append_nil]
    rw [← List.take_add]
    rw [Nat.succ_mul]

lemma workerChunks_flatten {α : Type*} (files : List α) (N : ℕ)
    (h : 1 ≤ N) : (workerChunks files N).flatten = files := by
  unfold workerChunks
  rw [flatten_chunks_take]
  apply List.take_of_length_le
  unfold chunkSizeOf
  have h1 := Nat.div_add_mod (files.length + N - 1) N
  have h2 : (files.length + N - 1) % N < N := Nat.mod_lt _ (by omega)
  set q := (files.length + N - 1) / N with hq
  set r := (files.length + N - 1) % N with hr
  set m := N * q with hm
  omega

/-! ### Fuzzy-cost lookup under unique record ids -/

lemma find?_fuseSearchModel_none (fuse : List Char → ItemForAnalysis → Option ℚ)
    (q : List Char) (theId : String) :
    ∀ items : List ItemForAnalysis, theId ∉ items.map (·.id) →
      (fuseSearchModel fuse q items).find? (fun r => r.1.id == theId) = none
  | [], _ => rfl
  | hd :: tl, h => by
    have h1 : hd.id ≠ theId := by
      intro he
      exact h (by simp [he])
    have h2 : theId ∉ tl.map (·.id) := by
      intro hm
      exact h (by simp [hm])
    cases hfq : fuse q hd with
    | none =>
      simp only [fuseSearchModel, List.filterMap_cons, hfq]
      exact find?_fuseSearchModel_none fuse q theId tl h2
    | some c =>
      simp only [fuseSearchModel, List.filterMap_cons, hfq, Option.map_some']
      rw [List.find?_cons_of_neg _ (by simp [h1])]
      exact find?_fuseSearchModel_none fuse q theId tl h2

/-- With unique ids in the batch, the `find`-by-id over the fuse search
results returns the record's own match entry: the per-record fuzzy score
does not depend on the rest of the batch. -/
lemma find?_fuseSearchModel (fuse : List Char → ItemForAnalysis → Option ℚ)
    (q : List Char) :
    ∀ (items : List ItemForAnalysis) (it : ItemForAnalysis),
      (items.map (·.id)).Nodup → it ∈ items →
      (fuseSearchModel fuse q items).find? (fun r => r.1.id == it.id) =
        (fuse q it).map (fun c => (it, c))
  | [], it, _, hmem => absurd hmem (List.not_mem_nil it)
  | hd :: tl, it, hnd, hmem => by
    have hnd' : hd.id ∉ tl.map (·.id) ∧ (tl.map (·.id)).Nodup :=
      List.nodup_cons.mp (by simpa using hnd)
    rcases List.mem_cons.mp hmem with rfl | hmem'
    · cases hfq : fuse q it with
      | none =>
        simp only [fuseSearchModel, List.filterMap_cons, hfq, Option.map_none']
        exact find?_fuseSearchModel_none fuse q it.id tl hnd'.1
      | some c =>
        simp only [fuseSearchModel, List.filterMap_cons, hfq, Option.map_some']
        rw [List.find?_cons_of_pos _ (by simp)]
    · have hne : hd.id ≠ it.id := by
        intro he
        exact hnd'.1 (he ▸ List.mem_map_of_mem (·.id) hmem')
      cases hfq : fuse q hd with
      | none =>
        simp only [fuseSearchModel, List.filterMap_cons, hfq]
        exact find?_fuseSearchModel fuse q tl it hnd'.2 hmem'
      | some c =>
        simp only [fuseSearchModel, List.filterMap_cons, hfq, Option.map_some']
        rw [List.find?_cons_of_neg _ (by simp [hne])]
        exact find?_fuseSearchModel fuse q tl it hnd'.2 hmem'

/-- With unique ids, scoring a record inside a batch agrees with the
chunk-independent per-record scorer. -/
lemma scoreItemInBatch_eq_scoreItem (fuse : List Char → ItemForAnalysis → Option ℚ)
    (phon : List Char → List Char → ℚ) (query : List Char)
    (items : List ItemForAnalysis) (it : ItemForAnalysis)
    (hnd : (items.map (·.id)).Nodup) (hmem : it ∈ items) :
    scoreItemInBatch fuse phon query items it = scoreItem fuse phon query it := by
  simp only [scoreItemInBatch, scoreItem,
    find?_fuseSearchModel fuse query items it hnd hmem]
  cases hfq : fuse query it <;> simp [hfq]

/-! ### Concrete data shared by witnesses and counterexamples -/

/-- A fuse engine reporting no match for any record (what `fuse.js`
returns when every record is entirely dissimilar from the query). -/
def fuseNone : List Char → ItemForAnalysis → Option ℚ := fun _ _ => none

/-- A phonetic comparison that never matches. -/
def phonZero : List Char → List Char → ℚ := fun _ _ => 0

def demoQuery : List Char := ['a', 'b']

def recX : ItemForAnalysis := { id := "x", title := some ['z', 'z'] }

def recY : ItemForAnalysis := { id := "y", title := some ['a', 'b'] }

def demoFiles : List ItemForAnalysis := [recX, recY]

/-- An all-`none` fuse engine finds nothing. -/
lemma fuseSearchModel_fuseNone (q : List Char) :
    ∀ items : List ItemForAnalysis, fuseSearchModel fuseNone q items = []
  | [] => rfl
  | _ :: tl => by
    simp only [fuseSearchModel, List.filterMap_cons, fuseNone, Option.map_none']
    exact fuseSearchModel_fuseNone q tl

lemma scoreItemInBatch_fuseNone (phon : List Char → List Char → ℚ)
    (q : List Char) (items : List ItemForAnalysis) (it : ItemForAnalysis) :
    scoreItemInBatch fuseNone phon q items it = scoreItem fuseNone phon q it := by
  simp [scoreItemInBatch, scoreItem, fuseSearchModel_fuseNone, fuseNone]

/-- Generic projection facts for the per-record scorer. -/
lemma scoreItem_id (fuse : List Char → ItemForAnalysis → Option ℚ)
    (phon : List Char → List Char → ℚ) (q : List Char) (it : ItemForAnalysis) :
    (scoreItem fuse phon q it).id = it.id := rfl

lemma scoreItem_languageSimilarity (fuse : List Char → ItemForAnalysis → Option ℚ)
    (phon : List Char → List Char → ℚ) (q : List Char) (it : ItemForAnalysis) :
    (scoreItem fuse phon q it).languageSimilarity =
      computeLanguageSimilarity phon q it := rfl

lemma scoreItem_fuzzyScore_fuseNone (phon : List Char → List Char → ℚ)
    (q : List Char) (it : ItemForAnalysis) :
    (scoreItem fuseNone phon q it).fuzzyScore = 0 := rfl

lemma scoreItem_similarity (fuse : List Char → ItemForAnalysis → Option ℚ)
    (phon : List Char → List Char → ℚ) (q : List Char) (it : ItemForAnalysis) :
    (scoreItem fuse phon q it).similarity =
      match computeLanguageSimilarity phon q it, computeDirectMatch q it with
      | some l, some d =>
        some (scoreWeights.language * l +
          scoreWeights.fuzzy * (scoreItem fuse phon q it).fuzzyScore +
          scoreWeights.directMatch * d)
      | _, _ => none := rfl

/-- Staged evaluations for the concrete records. -/
lemma languageSimilarity_recX :
    computeLanguageSimilarity phonZero demoQuery recX = some 0 := by
  have h1 : normalizeText demoQuery = ['a', 'b'] := by decide
  have h2 : normalizeText (recX.title.getD []) = ['z', 'z'] := by decide
  have h3 : normalizeText (recX.description.getD []) = [] := by decide
  have h4 : joinSpace ((recX.tags.getD []).map normalizeText) = [] := by decide
  have h5 : levenshtein ['a', 'b'] ['z', 'z'] = 2 := by decide
  have h6 : levenshtein ['a', 'b'] [] = 2 := by decide
  simp [computeLanguageSimilarity, h1, h2, h3, h4,
    computeLevenshteinSimilarity, h5, h6, languageWeights, phonZero]

lemma languageSimilarity_recY :
    computeLanguageSimilarity phonZero demoQuery recY = some 0.6 := by
  have h1 : normalizeText demoQuery = ['a', 'b'] := by decide
  have h2 : normalizeText (recY.title.getD []) = ['a', 'b'] := by decide
  have h3 : normalizeText (recY.description.getD []) = [] := by decide
  have h4 : joinSpace ((recY.tags.getD []).map normalizeText) = [] := by decide
  have h5 : levenshtein ['a', 'b'] ['a', 'b'] = 0 := by decide
  have h6 : levenshtein ['a', 'b'] [] = 2 := by decide
  simp [computeLanguageSimilarity, h1, h2, h3, h4,
    computeLevenshteinSimilarity, h5, h6, languageWeights, phonZero]

lemma directMatch_recX : computeDirectMatch demoQuery recX = some 0 := by
  have h1 : directNorm demoQuery = ['a', 'b'] := by decide
  have h2 : directMatchFieldScore ['a', 'b'] (recX.title.getD []) = some 0 := by
    decide
  have h3 : directMatchFieldScore ['a', 'b'] (recX.description.getD []) =
      some 0 := by decide
  have h4 : directMatchFieldScore ['a', 'b'] (joinSpace (recX.tags.getD [])) =
      some 0 := by decide
  have h5 : directMatchFieldScore ['a', 'b'] (recX.uploader.getD []) =
      some 0 := by decide
  simp [computeDirectMatch, h1, h2, h3, h4, h5, exactMatchWeights]

lemma directMatch_recY : computeDirectMatch demoQuery recY = some 0.6 := by
  have h1 : directNorm demoQuery = ['a', 'b'] := by decide
  have h2 : directNorm (recY.title.getD []) = ['a', 'b'] := by decide
  have h2t : directMatchFieldScore ['a', 'b'] (recY.title.getD []) = some 1 := by
    norm_num [directMatchFieldScore, h2]
  have h3 : directMatchFieldScore ['a', 'b'] (recY.description.getD []) =
      some 0 := by decide
  have h4 : directMatchFieldScore ['a', 'b'] (joinSpace (recY.tags.getD [])) =
      some 0 := by decide
  have h5 : directMatchFieldScore ['a', 'b'] (recY.uploader.getD []) =
      some 0 := by decide
  norm_num [computeDirectMatch, h1, h2t, h3, h4, h5, exactMatchWeights]

lemma similarity_recX :
    (scoreItem fuseNone phonZero demoQuery recX).similarity = some 0 := by
  rw [scoreItem_similarity, languageSimilarity_recX, directMatch_recX]
  norm_num [scoreWeights, scoreItem_fuzzyScore_fuseNone]

lemma similarity_recY :
    (scoreItem fuseNone phonZero demoQuery recY).similarity = some 0.48 := by
  rw [scoreItem_similarity, languageSimilarity_recY, directMatch_recY]
  norm_num [scoreWeights, scoreItem_fuzzyScore_fuseNone]

lemma computeSimilarity_demo :
    computeSimilarity fuseNone phonZero demoQuery demoFiles =
      [scoreItem fuseNone phonZero demoQuery recY,
        scoreItem fuseNone phonZero demoQuery recX] := by
  simp only [computeSimilarity, demoFiles, List.map_cons, List.map_nil,
    scoreItemInBatch_fuseNone, List.insertionSort, List.orderedInsert]
  rw [if_neg]
  intro hkr
  simp only [keyRel, similarityKey, similarity_recX, similarity_recY,
    jsGeB] at hkr
  norm_num at hkr

example :
    (computeSimilarity fuseNone phonZero demoQuery demoFiles).map
      (fun r => r.id) = [recY.id, recX.id] := by
  rw [computeSimilarity_demo]
  simp [scoreItem_id]

/-! ### C2: the chunks partition the candidate list exactly -/

/-- C2: for every candidate list and every `workerCount ≥ 1` (also when
it exceeds the list length), the contiguous chunks
`[i*chunkSize, (i+1)*chunkSize)` with `chunkSize = ceil(n / workerCount)`
partition the candidate list exactly: concatenating them in worker order
gives back the input with nothing duplicated or dropped, one chunk per
worker is produced, and a worker handed an empty chunk returns an empty
scored list rather than failing. -/
theorem c2_partition_exact (files : List ItemForAnalysis) (workerCount : ℕ)
    (fuse : List Char → ItemForAnalysis → Option ℚ)
    (phon : List Char → List Char → ℚ) (query : List Char)
    (h : 1 ≤ workerCount) :
    (workerChunks files workerCount).flatten = files ∧
    (workerChunks files workerCount).length = workerCount ∧
    computeSimilarity fuse phon query [] = [] :=
  ⟨workerChunks_flatten files workerCount h, by simp [workerChunks], rfl⟩

/-- Witness for C2 at a concrete list and `workerCount = 3 > 2 = |R|`. -/
theorem c2_partition_exact_witness :
    (workerChunks demoFiles 3).flatten = demoFiles ∧
    (workerChunks demoFiles 3).length = 3 ∧
    computeSimilarity fuseNone phonZero demoQuery [] = [] :=
  c2_partition_exact demoFiles 3 fuseNone phonZero demoQuery (by decide)

/-! ### C5: the dynamic fuzzy threshold -/

/-- The threshold formula exactly as the specification words it:
`clamp(0.1 + (ln(length)/ln(150)) * 0.7, 0.1, 0.8)`. -/
noncomputable def thresholdClampSpec (length : ℕ) : ℝ :=
  max 0.1 (min 0.8 (0.1 + (Real.log length / Real.log 150) * 0.7))

/-- C5: for every query length `≥ 1`, `calculateThreshold` equals the
spec's clamp formula, is non-decreasing in the length, and stays within
`[0.1, 0.8]`. -/
theorem c5_threshold (l m : ℕ) (hl : 1 ≤ l) (hlm : l ≤ m) :
    calculateThreshold l = thresholdClampSpec l ∧
    calculateThreshold l ≤ calculateThreshold m ∧
    0.1 ≤ calculateThreshold l ∧ calculateThreshold l ≤ 0.8 := by
  have hlpos : (0 : ℝ) < (l : ℝ) := by exact_mod_cast hl
  have hmpos : (0 : ℝ) < (m : ℝ) := lt_of_lt_of_le hlpos (by exact_mod_cast hlm)
  refine ⟨?_, ?_, ?_, ?_⟩
  · unfold calculateThreshold thresholdClampSpec
    norm_num
  · unfold calculateThreshold
    have hlog : Real.log l ≤ Real.log m :=
      (Real.log_le_log_iff hlpos hmpos).mpr (by exact_mod_cast hlm)
    have hlog150 : (0 : ℝ) < Real.log 150 := Real.log_pos (by norm_num)
    have hdiv : Real.log l / Real.log 150 ≤ Real.log m / Real.log 150 :=
      div_le_div_of_nonneg_right hlog hlog150.le
    refine max_le_max le_rfl (min_le_min le_rfl ?_)
    have := mul_le_mul_of_nonneg_right hdiv (by norm_num : (0 : ℝ) ≤ 0.8 - 0.1)
    linarith
  · exact le_max_left _ _
  · unfold calculateThreshold
    exact max_le (by norm_num) (le_trans (min_le_left _ _) (by norm_num))

/-- Witness for C5 at lengths 1 and 3. -/
theorem c5_threshold_witness :
    calculateThreshold 1 = thresholdClampSpec 1 ∧
    calculateThreshold 1 ≤ calculateThreshold 3 ∧
    0.1 ≤ calculateThreshold 1 ∧ calculateThreshold 1 ≤ 0.8 :=
  c5_threshold 1 3 (by norm_num) (by norm_num)

/-! ### C8: the text normalizer -/

/-- The normalization exactly as the claim words it: remove every
character that is neither alphanumeric nor whitespace.  This drops the
underscore, which the source's `\w` character class keeps. -/
def normalizeTextClaim (text : List Char) : List Char :=
  trimChars (collapseSpaces
    ((text.map Char.toLower).filter (fun c => c.isAlphanum || jsSpaceChar c)))

/-- C8 counterexample: on the string `"_"` the source keeps the
underscore (the regex class `\w` includes `_`), while the claim's
"all non-alphanumeric, non-space characters removed" deletes it. -/
theorem c8_counterexample :
    normalizeText ['_'] = ['_'] ∧ normalizeTextClaim ['_'] = [] ∧
    normalizeText ['_'] ≠ normalizeTextClaim ['_'] := by decide

/-- The claim's description amended to the correct character class:
keep word characters (letters, digits, underscore) and whitespace,
remove everything else. -/
def normalizeTextAmendedSpec (text : List Char) : List Char :=
  trimChars (collapseSpaces
    ((text.map Char.toLower).filter
      (fun c => !(!(c.isAlphanum || c = '_') && !(jsSpaceChar c)))))

/-- C8 (amended): `normalizeText` returns the lowercased input with
every character that is neither an ASCII word character (letter, digit,
underscore) nor whitespace removed, whitespace runs collapsed to single
spaces and leading/trailing whitespace trimmed; it is a total function
and maps the empty string to the empty string. -/
theorem c8_normalizeText_amended (s : List Char) :
    normalizeText s = normalizeTextAmendedSpec s ∧ normalizeText [] = [] := by
  constructor
  · unfold normalizeText normalizeTextAmendedSpec
    congr 2
    apply List.filter_congr
    intro c _
    simp [jsWordChar, Char.isAlphanum, Bool.not_and, Bool.not_not,
      Bool.or_assoc]
  · rfl

/-! ### C7: result limits ≤ 0 -/

/-- A pre-scored record for boundary tests. -/
def itemP : Item :=
  { id := "p", similarity := some 1, languageSimilarity := some 1,
    fuzzyScore := 1, directMatchScore := some 1 }

/-- A second pre-scored record for boundary tests. -/
def itemQ : Item :=
  { id := "q", similarity := some 0, languageSimilarity := some 0,
    fuzzyScore := 0, directMatchScore := some 0 }

/-- C7 counterexample: `resultLimit = -1` on a two-record merged list
returns one record, not the empty list — JavaScript `slice(0, -1)`
counts a negative end argument from the end of the array. -/
theorem c7_counterexample :
    (sliceAndSortResults [itemP, itemQ] (-1) similarityKey).length = 1 := by
  norm_num [sliceAndSortResults, jsSliceZero, List.insertionSort,
    List.orderedInsert, keyRel, jsGeB, similarityKey, itemP, itemQ]

/-- C7 (amended): a result limit of `0` yields the empty list; a
negative limit instead drops the last `|limit|` records of the sorted
list (so the output is nonempty whenever `|limit| < |results|`). -/
theorem c7_sliceAndSort_amended (results : List Item)
    (key : Item → Option ℚ) (limit : ℤ) (h : limit ≤ 0) :
    sliceAndSortResults results limit key =
      if limit = 0 then []
      else (List.insertionSort (keyRel key) results).take
        ((results.length : ℤ) + limit).toNat := by
  unfold sliceAndSortResults jsSliceZero
  by_cases h0 : limit = 0
  · subst h0
    simp
  · have hneg : ¬ (0 : ℤ) ≤ limit := by omega
    rw [if_neg hneg, if_neg h0, List.length_insertionSort]

/-- Witness for C7 at `limit = 0`. -/
theorem c7_sliceAndSort_witness :
    sliceAndSortResults [itemP, itemQ] 0 similarityKey = [] := by
  have h := c7_sliceAndSort_amended [itemP, itemQ] similarityKey 0 (by decide)
  simpa using h

/-! ### C9: worker failure fails the whole search -/

lemma promiseAll_error :
    ∀ rs : List (Except SearchFailure (List Item)),
      (∃ r ∈ rs, ∃ e, r = .error e) → ∃ e, promiseAll rs = .error e
  | [], h => absurd h (by simp)
  | r :: rs, h => by
    cases r with
    | error e => exact ⟨e, rfl⟩
    | ok a =>
      have hrs : ∃ r ∈ rs, ∃ e, r = .error e := by
        obtain ⟨r', hr', e, he⟩ := h
        rcases List.mem_cons.mp hr' with rfl | hmem
        · exact absurd he (by simp)
        · exact ⟨r', hmem, e, he⟩
      obtain ⟨e, he⟩ := promiseAll_error rs hrs
      exact ⟨e, by simp [promiseAll, he]⟩

lemma promiseAll_ok :
    ∀ lists : List (List Item), promiseAll (lists.map .ok) = .ok lists
  | [] => rfl
  | l :: ls => by simp [promiseAll, promiseAll_ok ls]

/-- C9: if any worker promise rejects (error event or nonzero exit
code), the whole distributed search reports a single failure and serves
no partial list; if every worker posts its result message, the search
succeeds with the merge of all workers' lists. -/
theorem c9_worker_failure (outcomesF outcomesS : List WorkerOutcome)
    (lists : List (List Item)) (limit : ℤ) (key : Item → Option ℚ)
    (hf : ∃ o ∈ outcomesF, ∃ e, workerPromise o = .error e)
    (hs : outcomesS = lists.map WorkerOutcome.message) :
    (∃ e, runDistributedWithOutcomes outcomesF limit key = .error e) ∧
    runDistributedWithOutcomes outcomesS limit key =
      .ok (sliceAndSortResults lists.flatten limit key) := by
  constructor
  · obtain ⟨o, ho, e, he⟩ := hf
    obtain ⟨e', he'⟩ :=
      promiseAll_error (outcomesF.map workerPromise)
        ⟨workerPromise o, List.mem_map_of_mem _ ho, e, he⟩
    exact ⟨e', by simp [runDistributedWithOutcomes, he']⟩
  · subst hs
    have hmap : (lists.map WorkerOutcome.message).map workerPromise =
        lists.map Except.ok := by
      rw [List.map_map]
      rfl
    rw [runDistributedWithOutcomes, hmap, promiseAll_ok]

/-- Witness for C9: one failing pool and one all-successful pool. -/
theorem c9_worker_failure_witness :
    (∃ e, runDistributedWithOutcomes [WorkerOutcome.message [itemP],
      WorkerOutcome.errored] 5 similarityKey = .error e) ∧
    runDistributedWithOutcomes [WorkerOutcome.message [itemP],
        WorkerOutcome.message []] 5 similarityKey =
      .ok (sliceAndSortResults (List.flatten [[itemP], []]) 5 similarityKey) :=
  c9_worker_failure _ _ [[itemP], []] 5 similarityKey
    ⟨WorkerOutcome.errored, by simp, SearchFailure.workerError, rfl⟩ rfl

/-! ### C3: the NaN edge case -/

/-- A query of punctuation only: `normalizeText` maps it to the empty
string. -/
def qBang : List Char := ['!', '!', '!']

/-- A record whose optional text fields are all absent. -/
def recEmpty : ItemForAnalysis := { id := "e" }

/-- Against the punctuation-only query, the empty record's language
similarity is the source's `0/0` result — `NaN` — for any phonetic
comparison. -/
lemma languageSimilarity_qBang_recEmpty (phon : List Char → List Char → ℚ) :
    computeLanguageSimilarity phon qBang recEmpty = none := by
  have hq : normalizeText qBang = [] := by decide
  simp [computeLanguageSimilarity, hq, recEmpty, joinSpace,
    computeLevenshteinSimilarity, normalizeText, collapseSpaces, trimChars]

/-- C3 (code bug): scoring the well-formed record with no title,
description or tags against the non-empty query `"!!!"` drives
`computeLevenshteinSimilarity` into its `0 / 0` branch, so the attached
`languageSimilarity` and `similarity` are `NaN` (`none` in this model)
— not the defined finite scores the claim requires.  This holds for
every fuse engine and every phonetic comparison. -/
theorem c3_nan_scores (fuse : List Char → ItemForAnalysis → Option ℚ)
    (phon : List Char → List Char → ℚ) :
    (computeSimilarity fuse phon qBang [recEmpty]).map
      (fun r => (r.languageSimilarity, r.similarity)) = [(none, none)] := by
  simp [computeSimilarity, List.insertionSort, List.orderedInsert,
    scoreItemInBatch, languageSimilarity_qBang_recEmpty]

/-! ### C4 and C10: the direct-match score -/

/-- For a non-empty normalized query, every per-field direct-match score
is a defined rational in `[0, 1]`. -/
lemma directMatchFieldScore_bounds (qn f : List Char) (h : qn ≠ []) :
    ∃ s : ℚ, directMatchFieldScore qn f = some s ∧ 0 ≤ s ∧ s ≤ 1 := by
  rw [directMatchFieldScore]
  by_cases hinf : qn <:+: directNorm f
  · have hfn : directNorm f ≠ [] := by
      intro hf
      rw [hf] at hinf
      exact h (List.eq_nil_of_infix_nil hinf)
    have hlen : 0 < (directNorm f).length := List.length_pos.mpr hfn
    rw [if_pos hinf, if_neg (by omega)]
    refine ⟨_, rfl, ?_, ?_⟩
    · positivity
    · rw [div_le_one (by exact_mod_cast hlen)]
      exact_mod_cast hinf.length_le
  · rw [if_neg hinf]
    exact ⟨0, rfl, le_refl 0, by norm_num⟩

/-- C10 (implicit invariant): for every record and every query whose
lowercased, trimmed form is non-empty, `computeDirectMatch` is a defined
rational in `[0, 1]`: a substring match forces the query no longer than
the field, bounding each per-field score by 1, and the four direct-match
weights sum to 1. -/
theorem c10_directMatch_bounded (q : List Char) (it : ItemForAnalysis)
    (h : directNorm q ≠ []) :
    ∃ v : ℚ, computeDirectMatch q it = some v ∧ 0 ≤ v ∧ v ≤ 1 := by
  obtain ⟨s1, hs1, hs1n, hs1o⟩ :=
    directMatchFieldScore_bounds (directNorm q) (it.title.getD []) h
  obtain ⟨s2, hs2, hs2n, hs2o⟩ :=
    directMatchFieldScore_bounds (directNorm q) (it.description.getD []) h
  obtain ⟨s3, hs3, hs3n, hs3o⟩ :=
    directMatchFieldScore_bounds (directNorm q) (joinSpace (it.tags.getD [])) h
  obtain ⟨s4, hs4, hs4n, hs4o⟩ :=
    directMatchFieldScore_bounds (directNorm q) (it.uploader.getD []) h
  refine ⟨exactMatchWeights.title * s1 + exactMatchWeights.description * s2 +
    exactMatchWeights.tags * s3 + exactMatchWeights.author * s4, ?_, ?_, ?_⟩
  · simp only [computeDirectMatch, hs1, hs2, hs3, hs4]
  · simp only [exactMatchWeights]
    have h1 := mul_nonneg (show (0 : ℚ) ≤ 0.6 by norm_num) hs1n
    have h2 := mul_nonneg (show (0 : ℚ) ≤ 0.25 by norm_num) hs2n
    have h3 := mul_nonneg (show (0 : ℚ) ≤ 0.05 by norm_num) hs3n
    have h4 := mul_nonneg (show (0 : ℚ) ≤ 0.1 by norm_num) hs4n
    linarith
  · simp only [exactMatchWeights]
    have h1 := mul_le_mul_of_nonneg_left hs1o (show (0 : ℚ) ≤ 0.6 by norm_num)
    have h2 := mul_le_mul_of_nonneg_left hs2o (show (0 : ℚ) ≤ 0.25 by norm_num)
    have h3 := mul_le_mul_of_nonneg_left hs3o (show (0 : ℚ) ≤ 0.05 by norm_num)
    have h4 := mul_le_mul_of_nonneg_left hs4o (show (0 : ℚ) ≤ 0.1 by norm_num)
    linarith

/-- Witness for C10 at the query `"ab"` against `recY` (whose title
contains the query, so the bound is attained at an inner point). -/
theorem c10_directMatch_bounded_witness :
    ∃ v : ℚ, computeDirectMatch demoQuery recY = some v ∧ 0 ≤ v ∧ v ≤ 1 :=
  c10_directMatch_bounded demoQuery recY (by decide)

/-- C4 counterexample: for the (non-empty) query `" "` — a single space,
whose lowercased/trimmed form is empty — and the field `"a"`, the
normalized query is a substring of the normalized field, yet the
per-field score is `0`, not a value in `(0, 1]` as the claim states. -/
theorem c4_counterexample :
    directNorm [' '] <:+: directNorm ['a'] ∧
    directMatchFieldScore (directNorm [' ']) ['a'] = some 0 ∧
    ¬ (0 : ℚ) < 0 := by
  refine ⟨by decide, ?_, by norm_num⟩
  have h : directNorm [' '] = [] := by decide
  rw [h, directMatchFieldScore]
  rw [if_pos (by decide), if_neg (by decide)]
  norm_num

/-- C4 (amended): for every query whose lowercased, trimmed form is
non-empty: a field whose normalization contains the query scores
`len(norm q) / len(norm f) ∈ (0, 1]`; a field without the substring
scores `0`; an empty field scores `0` rather than erroring; and
`computeDirectMatch` is the sum over the four fields of the per-field
scores multiplied by their direct-match weights. -/
theorem c4_directMatch (q f₁ f₂ f₃ : List Char) (it : ItemForAnalysis)
    (h : directNorm q ≠ [])
    (h₁ : directNorm q <:+: directNorm f₁)
    (h₂ : ¬ directNorm q <:+: directNorm f₂)
    (h₃ : directNorm f₃ = []) :
    (directMatchFieldScore (directNorm q) f₁ =
        some ((directNorm q).length / ((directNorm f₁).length : ℚ)) ∧
      0 < ((directNorm q).length / ((directNorm f₁).length : ℚ)) ∧
      ((directNorm q).length / ((directNorm f₁).length : ℚ)) ≤ 1) ∧
    directMatchFieldScore (directNorm q) f₂ = some 0 ∧
    directMatchFieldScore (directNorm q) f₃ = some 0 ∧
    (∃ s1 s2 s3 s4 : ℚ,
      directMatchFieldScore (directNorm q) (it.title.getD []) = some s1 ∧
      directMatchFieldScore (directNorm q) (it.description.getD []) = some s2 ∧
      directMatchFieldScore (directNorm q) (joinSpace (it.tags.getD [])) =
        some s3 ∧
      directMatchFieldScore (directNorm q) (it.uploader.getD []) = some s4 ∧
      computeDirectMatch q it =
        some (exactMatchWeights.title * s1 + exactMatchWeights.description * s2 +
          exactMatchWeights.tags * s3 + exactMatchWeights.author * s4)) := by
  have hfn : directNorm f₁ ≠ [] := by
    intro hf
    rw [hf] at h₁
    exact h (List.eq_nil_of_infix_nil h₁)
  have hlen : 0 < (directNorm f₁).length := List.length_pos.mpr hfn
  have hqlen : 0 < (directNorm q).length := List.length_pos.mpr h
  refine ⟨⟨?_, ?_, ?_⟩, ?_, ?_, ?_⟩
  · rw [directMatchFieldScore, if_pos h₁, if_neg (by omega)]
  · exact div_pos (by exact_mod_cast hqlen) (by exact_mod_cast hlen)
  · rw [div_le_one (by exact_mod_cast hlen)]
    exact_mod_cast h₁.length_le
  · rw [directMatchFieldScore, if_neg h₂]
  · have hni : ¬ directNorm q <:+: directNorm f₃ := by
      rw [h₃]
      intro hin
      exact h (List.eq_nil_of_infix_nil hin)
    rw [directMatchFieldScore, if_neg hni]
  · obtain ⟨s1, hs1, -, -⟩ :=
      directMatchFieldScore_bounds (directNorm q) (it.title.getD []) h
    obtain ⟨s2, hs2, -, -⟩ :=
      directMatchFieldScore_bounds (directNorm q) (it.description.getD []) h
    obtain ⟨s3, hs3, -, -⟩ :=
      directMatchFieldScore_bounds (directNorm q) (joinSpace (it.tags.getD [])) h
    obtain ⟨s4, hs4, -, -⟩ :=
      directMatchFieldScore_bounds (directNorm q) (it.uploader.getD []) h
    exact ⟨s1, s2, s3, s4, hs1, hs2, hs3, hs4,
      by simp only [computeDirectMatch, hs1, hs2, hs3, hs4]⟩

/-- Witness for C4: query `"ab"`, a field containing it, a field not
containing it, and an empty field, against `recX`. -/
theorem c4_directMatch_witness :
    (directMatchFieldScore (directNorm ['a', 'b']) ['z', 'a', 'b'] =
        some ((directNorm ['a', 'b']).length /
          ((directNorm ['z', 'a', 'b']).length : ℚ)) ∧
      0 < ((directNorm ['a', 'b']).length /
        ((directNorm ['z', 'a', 'b']).length : ℚ)) ∧
      ((directNorm ['a', 'b']).length /
        ((directNorm ['z', 'a', 'b']).length : ℚ)) ≤ 1) ∧
    directMatchFieldScore (directNorm ['a', 'b']) ['z'] = some 0 ∧
    directMatchFieldScore (directNorm ['a', 'b']) [] = some 0 ∧
    (∃ s1 s2 s3 s4 : ℚ,
      directMatchFieldScore (directNorm ['a', 'b']) (recX.title.getD []) =
        some s1 ∧
      directMatchFieldScore (directNorm ['a', 'b']) (recX.description.getD []) =
        some s2 ∧
      directMatchFieldScore (directNorm ['a', 'b'])
        (joinSpace (recX.tags.getD [])) = some s3 ∧
      directMatchFieldScore (directNorm ['a', 'b']) (recX.uploader.getD []) =
        some s4 ∧
      computeDirectMatch ['a', 'b'] recX =
        some (exactMatchWeights.title * s1 + exactMatchWeights.description * s2 +
          exactMatchWeights.tags * s3 + exactMatchWeights.author * s4)) :=
  c4_directMatch ['a', 'b'] ['z', 'a', 'b'] ['z'] [] recX (by decide)
    (by decide) (by decide) (by decide)

/-! ### C6: batch scoring returns one sorted record per candidate -/

/-- IEEE-style "at least" on similarity values: any comparison against
`NaN` (`none`) is false. -/
def geFinite : Option ℚ → Option ℚ → Bool
  | some x, some y => if y ≤ x then true else false
  | _, _ => false

/-- "Sorted in non-increasing order of the similarity field": every
adjacent pair compares `≥`, with `NaN` comparing false. -/
def sortedBySimilarity (l : List Item) : Prop :=
  List.Chain' (fun a b => geFinite a.similarity b.similarity = true) l

/-- The record whose all three Levenshtein fields are present (so its
similarity is finite even for an empty normalized query). -/
def recAbc : ItemForAnalysis :=
  { id := "a", title := some ['a'], description := some ['b'],
    tags := some [['c']] }

lemma similarity_qBang_recAbc :
    (scoreItem fuseNone phonZero qBang recAbc).similarity = some 0 := by
  have hlang : computeLanguageSimilarity phonZero qBang recAbc = some 0 := by
    have hq : normalizeText qBang = [] := by decide
    have h2 : normalizeText (recAbc.title.getD []) = ['a'] := by decide
    have h3 : normalizeText (recAbc.description.getD []) = ['b'] := by decide
    have h4 : joinSpace ((recAbc.tags.getD []).map normalizeText) = ['c'] := by
      decide
    have h5 : levenshtein [] ['a'] = 1 := by decide
    have h6 : levenshtein [] ['b'] = 1 := by decide
    have h7 : levenshtein [] ['c'] = 1 := by decide
    norm_num [computeLanguageSimilarity, hq, h2, h3, h4,
      computeLevenshteinSimilarity, h5, h6, h7, languageWeights, phonZero]
  have hdirect : computeDirectMatch qBang recAbc = some 0 := by
    have h1 : directNorm qBang = ['!', '!', '!'] := by decide
    have h2 : directMatchFieldScore ['!', '!', '!'] (recAbc.title.getD []) =
        some 0 := by decide
    have h3 : directMatchFieldScore ['!', '!', '!']
        (recAbc.description.getD []) = some 0 := by decide
    have h4 : directMatchFieldScore ['!', '!', '!']
        (joinSpace (recAbc.tags.getD [])) = some 0 := by decide
    have h5 : directMatchFieldScore ['!', '!', '!'] (recAbc.uploader.getD []) =
        some 0 := by decide
    norm_num [computeDirectMatch, h1, h2, h3, h4, h5, exactMatchWeights]
  rw [scoreItem_similarity, hlang, hdirect]
  norm_num [scoreWeights, scoreItem_fuzzyScore_fuseNone]

lemma similarity_qBang_recEmpty :
    (scoreItem fuseNone phonZero qBang recEmpty).similarity = none := by
  rw [scoreItem_similarity, languageSimilarity_qBang_recEmpty]

/-- C6 counterexample: with the non-empty query `"!!!"` and a batch
holding the fieldless record (whose similarity is `NaN`) and a normal
record (similarity `0`), the returned list is not sorted non-increasingly
in the similarity field — a `NaN` entry is ordered above a finite one
and compares false, and indeed no ordering of these two records would be
sorted. -/
theorem c6_counterexample :
    ¬ sortedBySimilarity
      (computeSimilarity fuseNone phonZero qBang [recEmpty, recAbc]) := by
  have heval : computeSimilarity fuseNone phonZero qBang [recEmpty, recAbc] =
      [scoreItem fuseNone phonZero qBang recEmpty,
        scoreItem fuseNone phonZero qBang recAbc] := by
    simp only [computeSimilarity, List.map_cons, List.map_nil,
      scoreItemInBatch_fuseNone, List.insertionSort, List.orderedInsert]
    rw [if_pos]
    simp [keyRel, jsGeB, similarityKey, similarity_qBang_recEmpty]
  rw [heval]
  simp [sortedBySimilarity, geFinite, similarity_qBang_recEmpty,
    similarity_qBang_recAbc]

/-- C6 (amended): the batch scorer returns exactly one scored record per
input candidate — unconditionally, the multiset of output ids equals the
multiset of input ids, nothing added or dropped — and, provided every
computed similarity is finite (the `NaN` edge case of C3 being
excluded), the returned list is sorted in non-increasing order of the
similarity field. -/
theorem c6_computeSimilarity (fuse : List Char → ItemForAnalysis → Option ℚ)
    (phon : List Char → List Char → ℚ) (query : List Char)
    (items : List ItemForAnalysis) :
    ((computeSimilarity fuse phon query items).map (fun r => r.id)).Perm
      (items.map (fun r => r.id)) ∧
    ((∀ it ∈ items,
        (scoreItemInBatch fuse phon query items it).similarity.isSome = true) →
      sortedBySimilarity (computeSimilarity fuse phon query items)) := by
  constructor
  · have hperm :=
      (List.perm_insertionSort (keyRel similarityKey)
        (items.map (scoreItemInBatch fuse phon query items))).map
        (fun r : Item => r.id)
    rw [computeSimilarity]
    refine hperm.trans ?_
    rw [List.map_map]
    exact List.Perm.refl _
  · intro hfin
    set L := items.map (scoreItemInBatch fuse phon query items) with hL
    have hsome : ∀ x ∈ L, x.similarity.isSome = true := by
      intro x hx
      obtain ⟨it, hit, rfl⟩ := List.mem_map.mp hx
      exact hfin it hit
    have hcongr : List.insertionSort (keyRel similarityKey) L =
        List.insertionSort (descRel (fun x : Item => x.similarity.getD 0)) L := by
      apply insertionSort_congr
      intro a ha b hb
      obtain ⟨x, hax⟩ := Option.isSome_iff_exists.mp (hsome a ha)
      obtain ⟨y, hby⟩ := Option.isSome_iff_exists.mp (hsome b hb)
      by_cases hyx : y ≤ x <;>
        simp [keyRel, jsGeB, similarityKey, descRel, hax, hby, hyx]
    rw [computeSimilarity, ← hL, hcongr]
    have hsorted := List.sorted_insertionSort
      (descRel (fun x : Item => x.similarity.getD 0)) L
    have hpw : (List.insertionSort
        (descRel (fun x : Item => x.similarity.getD 0)) L).Pairwise
        (fun a b => geFinite a.similarity b.similarity = true) := by
      refine List.Pairwise.imp_of_mem ?_ hsorted
      intro a b ha hb hr
      have ha' := (List.mem_insertionSort _).mp ha
      have hb' := (List.mem_insertionSort _).mp hb
      obtain ⟨x, hax⟩ := Option.isSome_iff_exists.mp (hsome a ha')
      obtain ⟨y, hby⟩ := Option.isSome_iff_exists.mp (hsome b hb')
      rw [descRel, hax, hby] at hr
      simp only [Option.getD_some] at hr
      simp [geFinite, hax, hby, hr]
    exact hpw.chain'

/-- Witness for C6 on the two-record batch with finite similarities,
discharging the sortedness clause's finiteness hypothesis there. -/
theorem c6_computeSimilarity_witness :
    ((computeSimilarity fuseNone phonZero demoQuery demoFiles).map
      (fun r => r.id)).Perm (demoFiles.map (fun r => r.id)) ∧
    sortedBySimilarity
      (computeSimilarity fuseNone phonZero demoQuery demoFiles) :=
  ⟨(c6_computeSimilarity fuseNone phonZero demoQuery demoFiles).1,
    (c6_computeSimilarity fuseNone phonZero demoQuery demoFiles).2 (by
      intro it hit
      rw [scoreItemInBatch_fuseNone]
      rcases List.mem_cons.mp hit with rfl | hit'
      · rw [similarity_recX]
        rfl
      · rcases List.mem_cons.mp hit' with rfl | hit''
        · rw [similarity_recY]
          rfl
        · exact absurd hit'' (List.not_mem_nil it))⟩

/-! ### C1: worker-count independence of the distributed search -/

/-- Every chunk is a contiguous slice of the candidate list. -/
lemma workerChunks_sublist {α : Type*} (files : List α) (N : ℕ) :
    ∀ ch ∈ workerChunks files N, ch.Sublist files := by
  intro ch hch
  simp only [workerChunks, List.mem_map, List.mem_range] at hch
  obtain ⟨i, -, rfl⟩ := hch
  exact (List.take_sublist _ _).trans (List.drop_sublist _ _)

/-- The canonical form of one worker's output under unique ids and the
descending-similarity order: sort the chunk's per-record scores. -/
lemma computeSimilarity_chunk (fuse : List Char → ItemForAnalysis → Option ℚ)
    (phon : List Char → List Char → ℚ) (query : List Char)
    (ch : List ItemForAnalysis)
    (hnd : (ch.map (·.id)).Nodup)
    (hfin : ∀ it ∈ ch, (scoreItem fuse phon query it).similarity.isSome = true) :
    computeSimilarity fuse phon query ch =
      List.insertionSort (descRel (fun x : Item => x.similarity.getD 0))
        (ch.map (scoreItem fuse phon query)) := by
  rw [computeSimilarity,
    List.map_congr_left (fun it hit =>
      scoreItemInBatch_eq_scoreItem fuse phon query ch it hnd hit)]
  apply insertionSort_congr
  intro a ha b hb
  obtain ⟨ia, hia, rfl⟩ := List.mem_map.mp ha
  obtain ⟨ib, hib, rfl⟩ := List.mem_map.mp hb
  obtain ⟨x, hax⟩ := Option.isSome_iff_exists.mp (hfin ia hia)
  obtain ⟨y, hby⟩ := Option.isSome_iff_exists.mp (hfin ib hib)
  by_cases hyx : y ≤ x <;>
    simp [keyRel, jsGeB, similarityKey, descRel, hax, hby, hyx]

/-- The heart of C1: under unique ids and finite similarities, the
globally sorted concatenation of the per-chunk sorted score lists equals
the sorted score list of the whole candidate set, for every worker
count `≥ 1`. -/
lemma distributed_core (fuse : List Char → ItemForAnalysis → Option ℚ)
    (phon : List Char → List Char → ℚ) (query : List Char)
    (files : List ItemForAnalysis) (N : ℕ) (hN : 1 ≤ N)
    (hnd : (files.map (·.id)).Nodup)
    (hfin : ∀ it ∈ files,
      (scoreItem fuse phon query it).similarity.isSome = true) :
    List.insertionSort (keyRel similarityKey)
      (((workerChunks files N).map (computeSimilarity fuse phon query)).flatten) =
    List.insertionSort (descRel (fun x : Item => x.similarity.getD 0))
      (files.map (scoreItem fuse phon query)) := by
  set kSim : Item → ℚ := fun x => x.similarity.getD 0 with hkSim
  have hchunks : (workerChunks files N).map (computeSimilarity fuse phon query) =
      (workerChunks files N).map (fun ch =>
        List.insertionSort (descRel kSim) (ch.map (scoreItem fuse phon query))) := by
    apply List.map_congr_left
    intro ch hch
    have hsub := workerChunks_sublist files N ch hch
    exact computeSimilarity_chunk fuse phon query ch
      (hnd.sublist (hsub.map (·.id)))
      (fun it hit => hfin it (hsub.subset hit))
  rw [hchunks]
  set L := ((workerChunks files N).map (fun ch =>
    List.insertionSort (descRel kSim) (ch.map (scoreItem fuse phon query)))).flatten
    with hLdef
  have hmemL : ∀ x ∈ L, x.similarity.isSome = true := by
    intro x hx
    rw [hLdef] at hx
    obtain ⟨l, hl, hxl⟩ := List.mem_flatten.mp hx
    obtain ⟨ch, hch, rfl⟩ := List.mem_map.mp hl
    have hx' := (List.mem_insertionSort _).mp hxl
    obtain ⟨it, hit, rfl⟩ := List.mem_map.mp hx'
    exact hfin it ((workerChunks_sublist files N ch hch).subset hit)
  have houter : List.insertionSort (keyRel similarityKey) L =
      List.insertionSort (descRel kSim) L := by
    apply insertionSort_congr
    intro a ha b hb
    obtain ⟨x, hax⟩ := Option.isSome_iff_exists.mp (hmemL a ha)
    obtain ⟨y, hby⟩ := Option.isSome_iff_exists.mp (hmemL b hb)
    by_cases hyx : y ≤ x <;>
      simp [keyRel, jsGeB, similarityKey, descRel, hkSim, hax, hby, hyx]
  rw [houter]
  apply insertionSort_eq_of_filter_eq
  intro v
  rw [hLdef, filter_flatten, List.map_map]
  have hfilters : ((workerChunks files N).map
      ((fun l => l.filter (fun y => decide (kSim y = v))) ∘ fun ch =>
        List.insertionSort (descRel kSim) (ch.map (scoreItem fuse phon query)))) =
      (workerChunks files N).map (fun ch =>
        (ch.map (scoreItem fuse phon query)).filter
          (fun y => decide (kSim y = v))) := by
    apply List.map_congr_left
    intro ch _
    exact filter_insertionSort_key kSim v (ch.map (scoreItem fuse phon query))
  rw [hfilters]
  have hch2 : (workerChunks files N).map (fun ch =>
      (ch.map (scoreItem fuse phon query)).filter
        (fun y => decide (kSim y = v))) =
      ((workerChunks files N).map (fun ch =>
        ch.map (scoreItem fuse phon query))).map
        (fun l => l.filter (fun y => decide (kSim y = v))) := by
    rw [List.map_map]
    rfl
  rw [hch2, ← filter_flatten, ← List.map_flatten,
    workerChunks_flatten files N hN]

/-- A record fuse.js cannot match against the query `"ab"`, yet with a
higher language similarity than `recX`: its title `"az"` is one edit
away from the query. -/
def recW : ItemForAnalysis := { id := "w", title := some ['a', 'z'] }

/-- The candidate list realizing the fuzzy-mode tie: neither record's
fields contain the query `"ab"` at all. -/
def demoFilesTie : List ItemForAnalysis := [recX, recW]

lemma languageSimilarity_recW :
    computeLanguageSimilarity phonZero demoQuery recW = some 0.3 := by
  have h1 : normalizeText demoQuery = ['a', 'b'] := by decide
  have h2 : normalizeText (recW.title.getD []) = ['a', 'z'] := by decide
  have h3 : normalizeText (recW.description.getD []) = [] := by decide
  have h4 : joinSpace ((recW.tags.getD []).map normalizeText) = [] := by decide
  have h5 : levenshtein ['a', 'b'] ['a', 'z'] = 1 := by decide
  have h6 : levenshtein ['a', 'b'] [] = 2 := by decide
  norm_num [computeLanguageSimilarity, h1, h2, h3, h4,
    computeLevenshteinSimilarity, h5, h6, languageWeights, phonZero]

lemma directMatch_recW : computeDirectMatch demoQuery recW = some 0 := by
  have h1 : directNorm demoQuery = ['a', 'b'] := by decide
  have h2 : directMatchFieldScore ['a', 'b'] (recW.title.getD []) = some 0 := by
    decide
  have h3 : directMatchFieldScore ['a', 'b'] (recW.description.getD []) =
      some 0 := by decide
  have h4 : directMatchFieldScore ['a', 'b'] (joinSpace (recW.tags.getD [])) =
      some 0 := by decide
  have h5 : directMatchFieldScore ['a', 'b'] (recW.uploader.getD []) =
      some 0 := by decide
  simp [computeDirectMatch, h1, h2, h3, h4, h5, exactMatchWeights]

lemma similarity_recW :
    (scoreItem fuseNone phonZero demoQuery recW).similarity = some 0.09 := by
  rw [scoreItem_similarity, languageSimilarity_recW, directMatch_recW]
  norm_num [scoreWeights, scoreItem_fuzzyScore_fuseNone]

lemma computeSimilarity_demoTie :
    computeSimilarity fuseNone phonZero demoQuery demoFilesTie =
      [scoreItem fuseNone phonZero demoQuery recW,
        scoreItem fuseNone phonZero demoQuery recX] := by
  simp only [computeSimilarity, demoFilesTie, List.map_cons, List.map_nil,
    scoreItemInBatch_fuseNone, List.insertionSort, List.orderedInsert]
  rw [if_neg]
  intro hkr
  simp only [keyRel, similarityKey, similarity_recX, similarity_recW,
    jsGeB] at hkr
  norm_num at hkr

/-- C1 counterexample: in the `fuzzy` sort mode, two records with equal
(zero) fuzzy scores but different similarities tie under the final
comparator, so the stable final sort leaves them in concatenation order
— which the worker count changes (one worker pre-sorts the pair by
similarity; two workers keep input order).  With `resultLimit = 1` the
top-1 id set differs between `workerCount = 1` and `workerCount = 2`.

The all-`none` fuse oracle is the real engine's behavior on this input:
for the two-character query `"ab"` the source configures fuse.js with
`threshold = calculateThreshold 2 ≈ 0.197`, so a single bitap error
(cost `1/2`) already exceeds the threshold and only exact occurrences
of `"ab"` can match — and no field of `recX` (title `"zz"`) or `recW`
(title `"az"`, no other fields) contains `"ab"`, in either chunking.
The records' similarities still differ through the Levenshtein language
score (`0` versus `0.3`). -/
theorem c1_counterexample :
    (runDistributed fuseNone phonZero demoQuery demoFilesTie 1 1 fuzzyKey).map
      (fun r => r.id) = [recW.id] ∧
    (runDistributed fuseNone phonZero demoQuery demoFilesTie 2 1 fuzzyKey).map
      (fun r => r.id) = [recX.id] := by
  have hfz : ∀ a b : Item, a.fuzzyScore = 0 → b.fuzzyScore = 0 →
      keyRel fuzzyKey a b := by
    intro a b ha hb
    simp [keyRel, fuzzyKey, jsGeB, ha, hb]
  have hx : computeSimilarity fuseNone phonZero demoQuery [recX] =
      [scoreItem fuseNone phonZero demoQuery recX] := by
    simp [computeSimilarity, scoreItemInBatch_fuseNone, List.insertionSort,
      List.orderedInsert]
  have hw : computeSimilarity fuseNone phonZero demoQuery [recW] =
      [scoreItem fuseNone phonZero demoQuery recW] := by
    simp [computeSimilarity, scoreItemInBatch_fuseNone, List.insertionSort,
      List.orderedInsert]
  constructor
  · have h1 : workerChunks demoFilesTie 1 = [demoFilesTie] := rfl
    rw [runDistributed, h1]
    simp only [List.map_cons, List.map_nil, List.flatten]
    rw [computeSimilarity_demoTie, List.append_nil, sliceAndSortResults]
    have hsort : List.insertionSort (keyRel fuzzyKey)
        [scoreItem fuseNone phonZero demoQuery recW,
          scoreItem fuseNone phonZero demoQuery recX] =
        [scoreItem fuseNone phonZero demoQuery recW,
          scoreItem fuseNone phonZero demoQuery recX] := by
      simp only [List.insertionSort, List.orderedInsert]
      rw [if_pos (hfz _ _ (scoreItem_fuzzyScore_fuseNone _ _ _)
        (scoreItem_fuzzyScore_fuseNone _ _ _))]
    rw [hsort]
    simp [jsSliceZero, scoreItem_id]
  · have h2 : workerChunks demoFilesTie 2 = [[recX], [recW]] := rfl
    rw [runDistributed, h2]
    simp only [List.map_cons, List.map_nil, List.flatten]
    rw [hx, hw, sliceAndSortResults]
    simp only [List.singleton_append, List.append_nil]
    have hsort : List.insertionSort (keyRel fuzzyKey)
        [scoreItem fuseNone phonZero demoQuery recX,
          scoreItem fuseNone phonZero demoQuery recW] =
        [scoreItem fuseNone phonZero demoQuery recX,
          scoreItem fuseNone phonZero demoQuery recW] := by
      simp only [List.insertionSort, List.orderedInsert]
      rw [if_pos (hfz _ _ (scoreItem_fuzzyScore_fuseNone _ _ _)
        (scoreItem_fuzzyScore_fuseNone _ _ _))]
    rw [hsort]
    simp [jsSliceZero, scoreItem_id]

/-- C1 (amended): for every fuse engine, phonetic comparison, query,
candidate list with unique ids, worker count `≥ 1` and result limit,
the distributed search under the default descending-similarity
comparator (`normal` mode and any unknown mode name) returns exactly
the single-worker result — identical top-K list, not merely the same
set — provided no record hits the `NaN` scoring edge case (C3).  For
the `fuzzy` and `language` modes the top-K set can change with the
worker count when records tie on the mode's key at the result-limit
boundary (see the counterexample), and the `random` mode is excluded. -/
theorem c1_distribution (fuse : List Char → ItemForAnalysis → Option ℚ)
    (phon : List Char → List Char → ℚ) (query : List Char)
    (files : List ItemForAnalysis) (N : ℕ) (limit : ℤ)
    (hN : 1 ≤ N)
    (hnd : (files.map (·.id)).Nodup)
    (hfin : ∀ it ∈ files,
      (scoreItem fuse phon query it).similarity.isSome = true) :
    runDistributed fuse phon query files N limit similarityKey =
      runDistributed fuse phon query files 1 limit similarityKey := by
  rw [runDistributed, runDistributed, sliceAndSortResults, sliceAndSortResults,
    distributed_core fuse phon query files N hN hnd hfin,
    distributed_core fuse phon query files 1 (le_refl 1) hnd hfin]

/-- Witness for C1: two records, two workers versus one. -/
theorem c1_distribution_witness :
    runDistributed fuseNone phonZero demoQuery demoFiles 2 3 similarityKey =
      runDistributed fuseNone phonZero demoQuery demoFiles 1 3 similarityKey :=
  c1_distribution fuseNone phonZero demoQuery demoFiles 2 3 (by decide)
    (by decide) (by
      intro it hit
      rcases List.mem_cons.mp hit with rfl | hit'
      · rw [similarity_recX]
        rfl
      · rcases List.mem_cons.mp hit' with rfl | hit''
        · rw [similarity_recY]
          rfl
        · exact absurd hit'' (List.not_mem_nil it))

end YTS
